import Mathlib

/-!
Verification of the mesh-cq simplex repeater core against its specification.

Shallow embedding of the Rust sources:
  crates/meshcq-cw/src/encode.rs, modulator.rs, sine_oscillator.rs
  crates/meshcq-dtmf/src/detect.rs, detect/dsp.rs
  crates/meshcq-simplex-repeater/src/main.rs

Machine integers (u64/usize) are modelled as Nat; the places where the Rust
code uses saturating or wrapping arithmetic are modelled explicitly with
`satAdd64` / `wrapSub64` (Nat subtraction itself is truncated, which matches
`saturating_sub` on in-range values).  f32 sample values are modelled as
exact rationals; the tone table of the sine oscillator is kept as an
explicit function parameter, since no claim depends on the tabulated sine
values.  The Goertzel/twist arithmetic of dsp.rs is modelled over the reals.
-/

/-- `u64::MAX`. -/
def U64_MAX : ℕ := 2 ^ 64 - 1

/-- `u64::saturating_add`. -/
def satAdd64 (a b : ℕ) : ℕ := min (a + b) U64_MAX

/-- Wrapping `u64` subtraction for operands below `2^64` (release-mode
semantics of `a - b`; debug builds panic when `b > a`). -/
def wrapSub64 (a b : ℕ) : ℕ := (a + 2 ^ 64 - b % 2 ^ 64) % 2 ^ 64

/-! ## CW encoder — crates/meshcq-cw/src/encode.rs -/

/-- `EncodeError` from encode.rs.  `UnknownSymbol` carries `ch.to_string()`,
`UnterminatedProsign` carries the byte offset of the opening bracket. -/
inductive EncodeError where
  | UnterminatedProsign (pos : ℕ)
  | UnknownSymbol (sym : String)
deriving DecidableEq, Repr

/-- `MORSE_TABLE` from encode.rs: map from a (single-character) key to its
dot/dash pattern. -/
def MORSE_TABLE (c : Char) : Option String :=
  match c with
  | 'A' => some ".-"
  | 'B' => some "-..."
  | 'C' => some "-.-."
  | 'D' => some "-.."
  | 'E' => some "."
  | 'F' => some "..-."
  | 'G' => some "--."
  | 'H' => some "...."
  | 'I' => some ".."
  | 'J' => some ".---"
  | 'K' => some "-.-"
  | 'L' => some ".-.."
  | 'M' => some "--"
  | 'N' => some "-."
  | 'O' => some "---"
  | 'P' => some ".--."
  | 'Q' => some "--.-"
  | 'R' => some ".-."
  | 'S' => some "..."
  | 'T' => some "-"
  | 'U' => some "..-"
  | 'V' => some "...-"
  | 'W' => some ".--"
  | 'X' => some "-..-"
  | 'Y' => some "-.--"
  | 'Z' => some "--.."
  | '0' => some "-----"
  | '1' => some ".----"
  | '2' => some "..---"
  | '3' => some "...--"
  | '4' => some "....-"
  | '5' => some "....."
  | '6' => some "-...."
  | '7' => some "--..."
  | '8' => some "---.."
  | '9' => some "----."
  | '.' => some ".-.-.-"
  | ',' => some "--..--"
  | '?' => some "..--.."
  | '\'' => some ".----."
  | '!' => some "-.-.--"
  | '/' => some "-..-."
  | '(' => some "-.--."
  | ')' => some "-.--.-"
  | '&' => some ".-..."
  | ':' => some "---..."
  | ';' => some "-.-.-."
  | '=' => some "-...-"
  | '+' => some ".-.-."
  | '-' => some "-....-"
  | '_' => some "..--.-"
  | '"' => some ".-..-."
  | '$' => some "...-..-"
  | '@' => some ".--.-."
  | _ => none

/-- Rust `char::is_whitespace` (the Unicode `White_Space` property; Lean's
`Char.isWhitespace` covers only the four ASCII cases, so the full set is
spelled out). -/
def rustIsWhitespace (c : Char) : Bool :=
  c.toNat = 0x09 || c.toNat = 0x0A || c.toNat = 0x0B || c.toNat = 0x0C ||
  c.toNat = 0x0D || c.toNat = 0x20 || c.toNat = 0x85 || c.toNat = 0xA0 ||
  c.toNat = 0x1680 || (0x2000 ≤ c.toNat && c.toNat ≤ 0x200A) ||
  c.toNat = 0x2028 || c.toNat = 0x2029 || c.toNat = 0x202F ||
  c.toNat = 0x205F || c.toNat = 0x3000

/-- Rust `char::to_ascii_uppercase`: maps `a..z` to `A..Z`, leaves every
other character unchanged. -/
def toAsciiUppercase (c : Char) : Char :=
  if 'a' ≤ c ∧ c ≤ 'z' then Char.ofNat (c.toNat - 32) else c

/-- `push_units` from encode.rs: push `count` copies of `value`. -/
def push_units (value : Bool) (count : ℕ) : List Bool :=
  List.replicate count value

/-- `emit_symbol` from encode.rs, on the pattern's character list: `.` is one
tone unit, `-` is three tone units, with one gap unit between marks of the
same character (inserted whenever more marks follow, i.e. `peek().is_some()`). -/
def emit_symbol_marks : List Char → List Bool
  | [] => []
  | mark :: rest =>
      (if mark = '.' then push_units true 1
       else if mark = '-' then push_units true 3
       else []) ++
      (if rest = [] then [] else push_units false 1) ++
      emit_symbol_marks rest

/-- `emit_symbol` on the pattern string. -/
def emit_symbol (pattern : String) : List Bool :=
  emit_symbol_marks pattern.data

/-- The loop body of `encode_units` (encode.rs), one step per character of
`char_indices`.  State: current byte index `idx`, `in_prosign`,
`last_was_symbol`, `prosign_start`, accumulated `bits`. -/
def encodeLoop : List Char → ℕ → Bool → Bool → ℕ → List Bool →
    Except EncodeError (List Bool)
  | [], _, inProsign, _, prosignStart, bits =>
      if inProsign then Except.error (EncodeError.UnterminatedProsign prosignStart)
      else Except.ok bits
  | ch :: rest, idx, inProsign, lastWasSymbol, prosignStart, bits =>
      if ch = '<' then
        if inProsign then Except.error (EncodeError.UnknownSymbol "<")
        else encodeLoop rest (idx + ch.utf8Size) true lastWasSymbol idx bits
      else if ch = '>' then
        if inProsign then
          encodeLoop rest (idx + ch.utf8Size) false lastWasSymbol prosignStart bits
        else Except.error (EncodeError.UnknownSymbol ">")
      else if rustIsWhitespace ch then
        if inProsign then
          encodeLoop rest (idx + ch.utf8Size) inProsign lastWasSymbol prosignStart bits
        else if lastWasSymbol then
          encodeLoop rest (idx + ch.utf8Size) inProsign false prosignStart
            (bits ++ push_units false 7)
        else
          encodeLoop rest (idx + ch.utf8Size) inProsign lastWasSymbol prosignStart bits
      else
        let bits1 := if lastWasSymbol ∧ ¬inProsign then bits ++ push_units false 3 else bits
        match MORSE_TABLE (toAsciiUppercase ch) with
        | none => Except.error (EncodeError.UnknownSymbol (String.singleton ch))
        | some pattern =>
            encodeLoop rest (idx + ch.utf8Size) inProsign true prosignStart
              (bits1 ++ emit_symbol pattern)

/-- `encode_units` from encode.rs: encode text into Morse units
(`true` = tone, `false` = gap).  Errors return no units at all (the `Except`
carries either the full unit list or the error, never both). -/
def encode_units (text : String) : Except EncodeError (List Bool) :=
  encodeLoop text.data 0 false false 0 []

instance {ε α : Type} [DecidableEq ε] [DecidableEq α] : DecidableEq (Except ε α) := fun a b =>
  match a, b with
  | Except.ok x, Except.ok y => if h : x = y then isTrue (by simp [h]) else isFalse (by simp [h])
  | Except.error x, Except.error y => if h : x = y then isTrue (by simp [h]) else isFalse (by simp [h])
  | Except.ok _, Except.error _ => isFalse (by simp)
  | Except.error _, Except.ok _ => isFalse (by simp)

/-- A character that may appear inside a prosign and resolves through the
Morse table: not a bracket, not whitespace, and present in the table after
uppercasing. -/
def prosignChar (c : Char) : Prop :=
  c ≠ '<' ∧ c ≠ '>' ∧ rustIsWhitespace c = false ∧
    (MORSE_TABLE (toAsciiUppercase c)).isSome = true

instance (c : Char) : Decidable (prosignChar c) := by
  unfold prosignChar; infer_instance

/-- The units produced for the characters enclosed in a prosign: each
character's `emit_symbol` pattern, concatenated directly with no gap at the
character boundaries. -/
def prosignUnits (inner : List Char) : List Bool :=
  inner.foldr (fun c acc => emit_symbol ((MORSE_TABLE (toAsciiUppercase c)).getD "") ++ acc) []

lemma encodeLoop_cons_sym (c : Char) (rest : List Char) (idx : ℕ) (lastSym : Bool)
    (ps : ℕ) (bits : List Bool) (pat : String)
    (h1 : c ≠ '<') (h2 : c ≠ '>') (h3 : rustIsWhitespace c = false)
    (hpat : MORSE_TABLE (toAsciiUppercase c) = some pat) :
    encodeLoop (c :: rest) idx true lastSym ps bits =
      encodeLoop rest (idx + c.utf8Size) true true ps (bits ++ emit_symbol pat) := by
  simp only [encodeLoop, h1, h2, h3, hpat, if_false, Bool.false_eq_true, not_true,
    and_false, if_neg, ite_false]

lemma encodeLoop_prosign (inner : List Char) : ∀ (rest : List Char) (idx : ℕ)
    (lastSym : Bool) (ps : ℕ) (bits : List Bool), (∀ c ∈ inner, prosignChar c) →
    encodeLoop (inner ++ rest) idx true lastSym ps bits =
      encodeLoop rest (idx + (inner.map Char.utf8Size).sum) true
        (if inner = [] then lastSym else true) ps (bits ++ prosignUnits inner) := by
  induction inner with
  | nil => intro rest idx lastSym ps bits _; simp [prosignUnits]
  | cons c cs ih =>
      intro rest idx lastSym ps bits hval
      obtain ⟨h1, h2, h3, h4⟩ := hval c (by simp)
      obtain ⟨pat, hpat⟩ := Option.isSome_iff_exists.mp h4
      rw [List.cons_append, encodeLoop_cons_sym c (cs ++ rest) idx lastSym ps bits pat h1 h2 h3 hpat,
        ih rest (idx + c.utf8Size) true ps (bits ++ emit_symbol pat)
          (fun d hd => hval d (by simp [hd]))]
      have hu : (bits ++ emit_symbol pat) ++ prosignUnits cs = bits ++ prosignUnits (c :: cs) := by
        simp [prosignUnits, hpat]
      rw [hu]
      simp only [List.map_cons, List.sum_cons, if_true, ite_self, List.cons_ne_nil,
        if_neg, if_false, reduceCtorEq]
      congr 1
      omega

/-- C1 counterexample: the claim predicts that the prosign `<AR>` encodes as
A's marks, one gap unit, then R's marks; the code inserts no gap at the A/R
boundary, so that prediction fails. -/
theorem encode_units_prosign_one_gap_false :
    encode_units "<AR>" ≠
      Except.ok ([true, false, true, true, true] ++ [false] ++
        [true, false, true, true, true, false, true]) := by
  decide

/-- C1 (amended): inside a prosign (text between `<` and `>`), the marks of
the enclosed characters are concatenated with NO gap unit across character
boundaries (the 1-unit gaps remain only between marks of a single
character's own pattern); e.g. in `encode_units "A<AR>B"` the units for A
and R inside the brackets are adjacent with no separating gap unit. -/
theorem encode_units_prosign_fuses_directly :
    (∀ inner : List Char, (∀ c ∈ inner, prosignChar c) →
        encode_units ⟨'<' :: inner ++ ['>']⟩ = Except.ok (prosignUnits inner)) ∧
    encode_units "A<AR>B" = Except.ok
      ([true, false, true, true, true] ++
       [true, false, true, true, true] ++
       [true, false, true, true, true, false, true] ++
       [false, false, false] ++
       [true, true, true, false, true, false, true, false, true]) := by
  constructor
  · intro inner hval
    show encodeLoop ('<' :: inner ++ ['>']) 0 false false 0 [] = _
    rw [show encodeLoop ('<' :: inner ++ ['>']) 0 false false 0 [] =
          encodeLoop (inner ++ ['>']) (0 + '<'.utf8Size) true false 0 [] from by
        simp [encodeLoop]]
    rw [encodeLoop_prosign inner ['>'] _ false 0 [] hval]
    cases inner <;> simp [encodeLoop]
  · decide

/-- C1 witness: the amended theorem applied to the concrete prosign `AR`. -/
theorem encode_units_prosign_fuses_directly_witness :
    encode_units ⟨'<' :: ['A', 'R'] ++ ['>']⟩ = Except.ok (prosignUnits ['A', 'R']) :=
  encode_units_prosign_fuses_directly.1 ['A', 'R'] (by decide)

/-- C9: a single character that is not a bracket, not whitespace, and (after
uppercasing) absent from the Morse table fails with `UnknownSymbol` carrying
that character; `"{"` fails with `UnknownSymbol "{"`; input ending inside a
prosign fails with `UnterminatedProsign` carrying the byte offset of the
opening `<` (`"<AR"` fails at offset 0).  In every error case the `Except`
result carries no unit sequence at all (never partial output). -/
theorem encode_units_error_cases :
    (∀ c : Char, c ≠ '<' → c ≠ '>' → rustIsWhitespace c = false →
        MORSE_TABLE (toAsciiUppercase c) = none →
        encode_units (String.singleton c) =
          Except.error (EncodeError.UnknownSymbol (String.singleton c))) ∧
    encode_units "\x7b" = Except.error (EncodeError.UnknownSymbol "\x7b") ∧
    encode_units "<AR" = Except.error (EncodeError.UnterminatedProsign 0) := by
  refine ⟨fun c h1 h2 h3 h4 => ?_, by decide, by decide⟩
  show encodeLoop [c] 0 false false 0 [] = _
  simp [encodeLoop, h1, h2, h3, h4, String.singleton]

/-- C9 witness: the general unknown-symbol case applied to the character
`}`. -/
theorem encode_units_error_cases_witness :
    encode_units (String.singleton '\x7d') =
      Except.error (EncodeError.UnknownSymbol (String.singleton '\x7d')) :=
  encode_units_error_cases.1 '\x7d' (by decide) (by decide) (by decide) (by decide)

/-! ## Sine oscillator — crates/meshcq-cw/src/sine_oscillator.rs

The shared table holds `sin(2*pi*i/4096)` as f32; its entries are kept
abstract here (a function `tbl : ℕ → ℚ` passed where the source reads the
process-wide table), since no claim depends on the tabulated values.  Phase
arithmetic is modelled exactly over ℚ. -/

/-- `TABLE_LEN` from sine_oscillator.rs. -/
def TABLE_LEN : ℕ := 4096

/-- `SineOscillator`: accumulated phase in table-index units and the fixed
per-sample increment. -/
structure SineOscillator where
  phase : ℚ
  phase_inc : ℚ
deriving DecidableEq, Repr

/-- `SineOscillator::new`: `phase_inc = tone_freq * TABLE_LEN / sample_rate`. -/
def SineOscillator.new (sample_rate_hz tone_freq_hz : ℚ) : SineOscillator :=
  { phase := 0, phase_inc := tone_freq_hz * (TABLE_LEN : ℚ) / sample_rate_hz }

/-- `SineOscillator::advance`: advance phase by `samples` steps, wrapping
with `%` once the phase reaches the table length (for the guarded
non-negative operand, f32 `%` agrees with the floor-based remainder). -/
def SineOscillator.advance (o : SineOscillator) (samples : ℕ) : SineOscillator :=
  if samples = 0 then o
  else
    let p := o.phase + o.phase_inc * (samples : ℚ)
    { o with phase := if (TABLE_LEN : ℚ) ≤ p then p - (TABLE_LEN : ℚ) * ⌊p / (TABLE_LEN : ℚ)⌋ else p }

/-- `SineOscillator::next`: linear interpolation between the two bracketing
table entries, then advance by one sample.  `phase.floor() as usize` is the
saturating float-to-integer cast, i.e. `Int.toNat ∘ Int.floor`. -/
def SineOscillator.next (tbl : ℕ → ℚ) (o : SineOscillator) : ℚ × SineOscillator :=
  let idx := (⌊o.phase⌋).toNat
  let frac := o.phase - (idx : ℚ)
  let value := tbl idx * (1 - frac) + tbl ((idx + 1) % TABLE_LEN) * frac
  (value, o.advance 1)

/-- `SineOscillator::reset`. -/
def SineOscillator.reset (o : SineOscillator) : SineOscillator :=
  { o with phase := 0 }

/-! ## CW modulator — crates/meshcq-cw/src/modulator.rs -/

/-- `CwModulator`: unit length in samples, oscillator, output level. -/
structure CwModulator where
  unit_samples : ℕ
  osc : SineOscillator
  level : ℚ
deriving DecidableEq, Repr

/-- `CwModulator::new`: PARIS timing, `unit_samples =
round(sample_rate * 60 / (wpm * 50))` floored to at least 1 (`.round() as
usize` is round-half-away-from-zero then a saturating cast; for the
non-negative arguments used this is `Int.toNat ∘ round`). -/
def CwModulator.new (sample_rate_hz tone_freq_hz wpm level : ℚ) : CwModulator :=
  let unit_seconds := 60 / (wpm * 50)
  let unit_samples := (round (sample_rate_hz * unit_seconds) : ℤ).toNat
  { unit_samples := max unit_samples 1
    osc := SineOscillator.new sample_rate_hz tone_freq_hz
    level := level }

/-- One unit of `CwModulator::modulate`'s inner `for` loop: write
`unit_samples` samples for gate value `gate`.  A tone sample is
`osc.next() * level`; a gap sample is `0.0` with `osc.advance(1)`. -/
def emitUnit (tbl : ℕ → ℚ) (level : ℚ) (gate : Bool) :
    ℕ → SineOscillator → List ℚ × SineOscillator
  | 0, osc => ([], osc)
  | n + 1, osc =>
      let step : ℚ × SineOscillator :=
        if gate then
          let r := osc.next tbl
          (r.1 * level, r.2)
        else (0, osc.advance 1)
      let rest := emitUnit tbl level gate n step.2
      (step.1 :: rest.1, rest.2)

/-- The `while` loop of `CwModulator::modulate`, with the remaining buffer
room in place of `offset`/`out.len()` (the loop guard
`offset + unit_samples <= out.len()` becomes `unit_samples ≤ room`).
Returns the written samples (whose length is the returned `offset`), the
units left in the iterator, and the final oscillator. -/
def modulateGo (tbl : ℕ → ℚ) (us : ℕ) (level : ℚ) :
    List Bool → ℕ → SineOscillator → List ℚ × List Bool × SineOscillator
  | units, room, osc =>
    if us ≤ room then
      match units with
      | [] => ([], [], osc)
      | gate :: rest =>
          let chunk := emitUnit tbl level gate us osc
          let r := modulateGo tbl us level rest (room - us) chunk.2
          (chunk.1 ++ r.1, r.2.1, r.2.2)
    else ([], units, osc)

/-- `CwModulator::modulate` on an output buffer of length `out_len`. -/
def CwModulator.modulate (tbl : ℕ → ℚ) (m : CwModulator) (units : List Bool)
    (out_len : ℕ) : List ℚ × List Bool × SineOscillator :=
  modulateGo tbl m.unit_samples m.level units out_len m.osc

lemma modulateGo_stop (tbl : ℕ → ℚ) (us : ℕ) (level : ℚ) (units : List Bool)
    (room : ℕ) (osc : SineOscillator) (h : ¬ us ≤ room) :
    modulateGo tbl us level units room osc = ([], units, osc) := by
  rw [modulateGo.eq_def]; simp [h]

lemma modulateGo_nil (tbl : ℕ → ℚ) (us : ℕ) (level : ℚ) (room : ℕ)
    (osc : SineOscillator) (h : us ≤ room) :
    modulateGo tbl us level [] room osc = ([], [], osc) := by
  rw [modulateGo.eq_def]; simp [h]

lemma modulateGo_cons (tbl : ℕ → ℚ) (us : ℕ) (level : ℚ) (gate : Bool)
    (rest : List Bool) (room : ℕ) (osc : SineOscillator) (h : us ≤ room) :
    modulateGo tbl us level (gate :: rest) room osc =
      ((emitUnit tbl level gate us osc).1 ++
          (modulateGo tbl us level rest (room - us) (emitUnit tbl level gate us osc).2).1,
        (modulateGo tbl us level rest (room - us) (emitUnit tbl level gate us osc).2).2.1,
        (modulateGo tbl us level rest (room - us) (emitUnit tbl level gate us osc).2).2.2) := by
  rw [modulateGo.eq_def]; simp [h]

lemma emitUnit_length (tbl : ℕ → ℚ) (level : ℚ) (gate : Bool) :
    ∀ (n : ℕ) (osc : SineOscillator), (emitUnit tbl level gate n osc).1.length = n := by
  intro n
  induction n with
  | zero => intro osc; simp [emitUnit]
  | succ k ih => intro osc; simp [emitUnit, ih]

lemma modulateGo_spec (tbl : ℕ → ℚ) (us : ℕ) (level : ℚ) :
    ∀ (units : List Bool) (room : ℕ) (osc : SineOscillator),
    (∃ pre, units = pre ++ (modulateGo tbl us level units room osc).2.1 ∧
        (modulateGo tbl us level units room osc).1.length = pre.length * us) ∧
    (modulateGo tbl us level units room osc).1.length ≤ room ∧
    ((modulateGo tbl us level units room osc).2.1 = [] ∨
      room < (modulateGo tbl us level units room osc).1.length + us) := by
  intro units
  induction units with
  | nil =>
      intro room osc
      by_cases h : us ≤ room
      · simp [modulateGo_nil tbl us level room osc h]
      · simp [modulateGo_stop tbl us level [] room osc h]
  | cons gate rest ih =>
      intro room osc
      by_cases h : us ≤ room
      · obtain ⟨⟨pre, hpre, hlen⟩, hle, hstop⟩ := ih (room - us) (emitUnit tbl level gate us osc).2
        rw [modulateGo_cons tbl us level gate rest room osc h]
        simp only [List.length_append, emitUnit_length]
        refine ⟨⟨gate :: pre, by rw [List.cons_append, ← hpre], by rw [hlen]; simp; ring⟩,
          by omega, ?_⟩
        rcases hstop with h1 | h1
        · exact Or.inl h1
        · exact Or.inr (by omega)
      · rw [modulateGo_stop tbl us level _ room osc h]
        exact ⟨⟨[], by simp, by simp⟩, by simp, Or.inr (by omega)⟩

/-- C6: for every unit list and output buffer length, `modulate` writes a
sample count that is an exact multiple of `unit_samples` and at most the
buffer length; it consumes whole units only (the leftover units are the
exact suffix after the consumed prefix, and the written count is the
consumed count times `unit_samples`), and it stops precisely when the unit
source is exhausted or fewer than `unit_samples` slots remain. -/
theorem modulate_whole_units (tbl : ℕ → ℚ) (m : CwModulator) (units : List Bool)
    (out_len : ℕ) :
    (m.modulate tbl units out_len).1.length % m.unit_samples = 0 ∧
    (m.modulate tbl units out_len).1.length ≤ out_len ∧
    (∃ pre, units = pre ++ (m.modulate tbl units out_len).2.1 ∧
        (m.modulate tbl units out_len).1.length = pre.length * m.unit_samples) ∧
    ((m.modulate tbl units out_len).2.1 = [] ∨
      out_len < (m.modulate tbl units out_len).1.length + m.unit_samples) := by
  obtain ⟨⟨pre, hpre, hlen⟩, hle, hstop⟩ :=
    modulateGo_spec tbl m.unit_samples m.level units out_len m.osc
  exact ⟨by simp [CwModulator.modulate, hlen], hle, ⟨pre, hpre, hlen⟩, hstop⟩

lemma emitUnit_osc (tbl : ℕ → ℚ) (level : ℚ) (gate : Bool) :
    ∀ (n : ℕ) (osc : SineOscillator),
    (emitUnit tbl level gate n osc).2 = (fun o => SineOscillator.advance o 1)^[n] osc := by
  intro n
  induction n with
  | zero => intro osc; simp [emitUnit]
  | succ k ih =>
      intro osc
      cases gate <;>
        simp [emitUnit, ih, SineOscillator.next, Function.iterate_succ_apply]

lemma emitUnit_gap (tbl : ℕ → ℚ) (level : ℚ) :
    ∀ (n : ℕ) (osc : SineOscillator),
    (emitUnit tbl level false n osc).1 = List.replicate n 0 := by
  intro n
  induction n with
  | zero => intro osc; simp [emitUnit]
  | succ k ih => intro osc; simp [emitUnit, ih, List.replicate_succ]

lemma modulateGo_osc (tbl : ℕ → ℚ) (us : ℕ) (level : ℚ) :
    ∀ (units : List Bool) (room : ℕ) (osc : SineOscillator),
    (modulateGo tbl us level units room osc).2.2 =
      (fun o => SineOscillator.advance o 1)^[(modulateGo tbl us level units room osc).1.length] osc := by
  intro units
  induction units with
  | nil =>
      intro room osc
      by_cases h : us ≤ room
      · simp [modulateGo_nil tbl us level room osc h]
      · simp [modulateGo_stop tbl us level [] room osc h]
  | cons gate rest ih =>
      intro room osc
      by_cases h : us ≤ room
      · rw [modulateGo_cons tbl us level gate rest room osc h]
        simp only [List.length_append, emitUnit_length, ih, emitUnit_osc]
        rw [← Function.iterate_add_apply]
        congr 1
        omega
      · simp [modulateGo_stop tbl us level _ room osc h]

/-- C7: a gap unit writes exactly `0` for each of its `unit_samples` output
samples while advancing the oscillator once per sample (exactly as each tone
sample's `next()` does), so the oscillator state after modulating any unit
sequence equals the state after a continuous tone of the same total sample
count. -/
theorem modulate_gap_zero_phase_continuous (tbl : ℕ → ℚ) (m : CwModulator)
    (units : List Bool) (out_len : ℕ) (osc : SineOscillator) :
    emitUnit tbl m.level false m.unit_samples osc =
      (List.replicate m.unit_samples 0,
        (fun o => SineOscillator.advance o 1)^[m.unit_samples] osc) ∧
    (m.modulate tbl units out_len).2.2 =
      (emitUnit tbl m.level true (m.modulate tbl units out_len).1.length m.osc).2 := by
  constructor
  · exact Prod.ext (emitUnit_gap tbl m.level m.unit_samples osc)
      (emitUnit_osc tbl m.level false m.unit_samples osc)
  · rw [emitUnit_osc]
    exact modulateGo_osc tbl m.unit_samples m.level units out_len m.osc

/-! ## Repeater control loop — crates/meshcq-simplex-repeater/src/main.rs -/

/-- `TimedChunk` from meshcq-modem device.rs: a burst of samples tagged with
the absolute sample index just past its last sample. -/
structure TimedChunk where
  samples : List ℚ
  end_sample : ℕ
deriving DecidableEq, Repr

/-- `TransmitResult` from main.rs. -/
structure TransmitResult where
  sent_callsign : Bool
  transmission_end_sample : ℕ
deriving DecidableEq, Repr

/-- `SAMPLE_RATE_HZ` (48 kHz). -/
def SAMPLE_RATE_HZ : ℚ := 48000

/-- `samples_from_secs`: `(SAMPLE_RATE_HZ * secs).round() as u64`.  For every
duration constant used by main.rs the f32 product rounds to the same integer
as the exact rational product. -/
def samples_from_secs (secs : ℚ) : ℕ :=
  (round (SAMPLE_RATE_HZ * secs) : ℤ).toNat

/-- `ID_INTERVAL_SECS` = 9 minutes. -/
def ID_INTERVAL_SECS : ℕ := 9 * 60

/-- `TX_LEAD_TIME_SECS` = 0.2 s. -/
def TX_LEAD_TIME_SECS : ℚ := 1 / 5

/-- `TX_HANG_TIME_SECS` = 1 s. -/
def TX_HANG_TIME_SECS : ℚ := 1

/-- `PRE_CALLSIGN_GAP_SECS` = 1 s. -/
def PRE_CALLSIGN_GAP_SECS : ℚ := 1

/-- `transmit_len` from main.rs: lead-in + message + (pre-callsign gap +
callsign when included) + hang time, in samples. -/
def transmit_len (message_len callsign_len : ℕ) (include_callsign : Bool) : ℕ :=
  let lead_samples := (round (SAMPLE_RATE_HZ * TX_LEAD_TIME_SECS) : ℤ).toNat
  let hang_samples := (round (SAMPLE_RATE_HZ * TX_HANG_TIME_SECS) : ℤ).toNat
  let gap_samples := if include_callsign
    then (round (SAMPLE_RATE_HZ * PRE_CALLSIGN_GAP_SECS) : ℤ).toNat else 0
  lead_samples + message_len + gap_samples +
    (if include_callsign then callsign_len else 0) + hang_samples

/-- `build_transmit_message` from main.rs. -/
def build_transmit_message (message callsign_samples : List ℚ)
    (include_callsign : Bool) : List ℚ :=
  let lead_samples := (round (SAMPLE_RATE_HZ * TX_LEAD_TIME_SECS) : ℤ).toNat
  let hang_samples := (round (SAMPLE_RATE_HZ * TX_HANG_TIME_SECS) : ℤ).toNat
  let gap_samples := if include_callsign
    then (round (SAMPLE_RATE_HZ * PRE_CALLSIGN_GAP_SECS) : ℤ).toNat else 0
  List.replicate lead_samples 0 ++ message ++
    (if include_callsign then List.replicate gap_samples 0 ++ callsign_samples else []) ++
    List.replicate hang_samples 0

/-- `transmit_message` from main.rs.  The pair carries the buffer sent on the
output channel and the returned `TransmitResult`. -/
def transmit_message (message : TimedChunk) (callsign_samples : List ℚ)
    (last_id : Option ℕ) : List ℚ × TransmitResult :=
  let message_end := message.end_sample
  let id_due := last_id.map (fun last => satAdd64 last (samples_from_secs (ID_INTERVAL_SECS : ℚ)))
  let base_len := transmit_len message.samples.length callsign_samples.length false
  let will_expire := match id_due with
    | some due => decide (due ≤ satAdd64 message_end base_len)
    | none => true
  let out := build_transmit_message message.samples callsign_samples will_expire
  (out, { sent_callsign := will_expire
          transmission_end_sample := satAdd64 message_end out.length })

/-- The body of `read_message`'s continuation loop in main.rs: absorb one
further chunk into the message, zero-filling the inter-chunk gap computed
from absolute sample positions (`saturating_sub` on in-range u64 is ℕ
subtraction). -/
def read_message_step (acc next : TimedChunk) : TimedChunk :=
  let next_start := next.end_sample - next.samples.length
  let gap_samples := next_start - acc.end_sample
  { samples := acc.samples ++ List.replicate gap_samples 0 ++ next.samples
    end_sample := next.end_sample }

/-- `read_message` restricted to its merging logic: the first received chunk
folded with every further chunk that arrived within the continuity timeout
(the channel/timeout plumbing is external to the merge arithmetic). -/
def read_message_merge (first : TimedChunk) (absorbed : List TimedChunk) : TimedChunk :=
  absorbed.foldl read_message_step first

/-- C3: a station ID (callsign) is appended iff no prior ID exists, or the
message's end sample plus the length of the ID-less transmission (lead-in +
message + hang) reaches `last_id + ID_INTERVAL` (9 minutes = 25920000
samples at 48 kHz); a message whose provisional end stays strictly below
`last_id + ID_INTERVAL` does not force an ID.  The callsign audio is part of
the output buffer exactly when `sent_callsign` says so. -/
theorem transmit_message_id_schedule (message : TimedChunk) (callsign_samples : List ℚ) :
    samples_from_secs (ID_INTERVAL_SECS : ℚ) = 25920000 ∧
    (transmit_message message callsign_samples none).2.sent_callsign = true ∧
    (∀ last : ℕ,
        last + samples_from_secs (ID_INTERVAL_SECS : ℚ) ≤ U64_MAX →
        message.end_sample +
            transmit_len message.samples.length callsign_samples.length false ≤ U64_MAX →
        ((transmit_message message callsign_samples (some last)).2.sent_callsign = true ↔
          last + samples_from_secs (ID_INTERVAL_SECS : ℚ) ≤
            message.end_sample +
              transmit_len message.samples.length callsign_samples.length false)) ∧
    (∀ last : ℕ,
        last + samples_from_secs (ID_INTERVAL_SECS : ℚ) ≤ U64_MAX →
        message.end_sample +
            transmit_len message.samples.length callsign_samples.length false <
          last + samples_from_secs (ID_INTERVAL_SECS : ℚ) →
        (transmit_message message callsign_samples (some last)).2.sent_callsign = false) ∧
    (∀ last_id : Option ℕ,
        (transmit_message message callsign_samples last_id).1 =
          build_transmit_message message.samples callsign_samples
            ((transmit_message message callsign_samples last_id).2.sent_callsign)) := by
  refine ⟨?_, rfl, ?_, ?_, ?_⟩
  · norm_num [samples_from_secs, SAMPLE_RATE_HZ, ID_INTERVAL_SECS]
    rfl
  · intro last h1 h2
    simp only [transmit_message, satAdd64, Option.map_some', decide_eq_true_eq,
      U64_MAX] at h1 h2 ⊢
    omega
  · intro last h1 h2
    simp only [transmit_message, satAdd64, Option.map_some', decide_eq_true_eq,
      decide_eq_false_iff_not, U64_MAX] at h1 h2 ⊢
    omega
  · intro last_id
    cases last_id <;> rfl

/-- C3 witness: with `last_id = 0` and an empty message ending at sample 100,
the provisional end `100 + 57600` stays below the 9-minute interval, so no
ID is sent; with no prior ID one is always sent. -/
theorem transmit_message_id_schedule_witness :
    (transmit_message ⟨[], 100⟩ [] (some 0)).2.sent_callsign = false ∧
    (transmit_message ⟨[], 100⟩ [] none).2.sent_callsign = true :=
  ⟨(transmit_message_id_schedule ⟨[], 100⟩ []).2.2.2.1 0
      (by norm_num [samples_from_secs, SAMPLE_RATE_HZ, ID_INTERVAL_SECS, U64_MAX])
      (by norm_num [samples_from_secs, SAMPLE_RATE_HZ, ID_INTERVAL_SECS, transmit_len,
        TX_LEAD_TIME_SECS, TX_HANG_TIME_SECS, PRE_CALLSIGN_GAP_SECS]),
    (transmit_message_id_schedule ⟨[], 100⟩ []).2.1⟩

lemma read_message_merge_last :
    ∀ (absorbed : List TimedChunk) (first : TimedChunk) (c : TimedChunk),
      absorbed.getLast? = some c →
      (read_message_merge first absorbed).end_sample = c.end_sample := by
  intro absorbed
  induction absorbed with
  | nil => intro first c hc; simp at hc
  | cons a rest ih =>
      intro first c hc
      cases rest with
      | nil =>
          simp at hc
          simp [read_message_merge, ← hc, read_message_step]
      | cons b more =>
          simp only [List.getLast?_cons_cons] at hc
          simpa [read_message_merge] using ih (read_message_step first a) c hc

/-- C5: absorbing one further chunk concatenates with exactly
`next_start - last_end` zero samples in between, where `next_start =
next.end_sample - next.samples.len()` (absolute sample positions), and the
merged message's end sample is the last absorbed chunk's `end_sample`. -/
theorem read_message_gap_zero_fill (acc next first : TimedChunk)
    (absorbed : List TimedChunk) :
    (read_message_step acc next).samples =
      acc.samples ++
        List.replicate ((next.end_sample - next.samples.length) - acc.end_sample) 0 ++
        next.samples ∧
    (read_message_step acc next).end_sample = next.end_sample ∧
    (∀ c, absorbed.getLast? = some c →
      (read_message_merge first absorbed).end_sample = c.end_sample) := by
  exact ⟨rfl, rfl, fun c hc => read_message_merge_last absorbed first c hc⟩

/-- C5 witness: a chunk of two samples ending at 10 absorbed after a chunk
ending at 5 gets exactly 3 zero samples inserted, and the merged end sample
is the absorbed chunk's. -/
theorem read_message_gap_zero_fill_witness :
    (read_message_step ⟨[1], 5⟩ ⟨[2, 2], 10⟩).samples =
      [1] ++ List.replicate 3 0 ++ [2, 2] ∧
    (read_message_merge ⟨[1], 5⟩ [⟨[2, 2], 10⟩]).end_sample = 10 := by
  refine ⟨?_, (read_message_gap_zero_fill ⟨[1], 5⟩ ⟨[2, 2], 10⟩ ⟨[1], 5⟩
    [⟨[2, 2], 10⟩]).2.2 ⟨[2, 2], 10⟩ (by rfl)⟩
  have h := (read_message_gap_zero_fill ⟨[1], 5⟩ ⟨[2, 2], 10⟩ ⟨[1], 5⟩ []).1
  simpa using h

/-! ## DTMF debouncer — crates/meshcq-dtmf/src/detect.rs

The wrapped `DtmfDetector` is, per window, a function of the samples fed to
it since its last reset (feed accumulates, finish is pure on the state,
reset clears); `push` is modelled with that window function as an explicit
parameter `detect : List α → Option Char` and with the pending window
carried in the state.  The sample type `α` is arbitrary because `push`
never inspects sample values. -/

/-- The fixed key ordering of `most_common_key`'s index table in detect.rs:
`1 2 3 A 4 5 6 B 7 8 9 C * 0 # D`. -/
def keyIndex (ch : Char) : Option ℕ :=
  match ch with
  | '1' => some 0
  | '2' => some 1
  | '3' => some 2
  | 'A' => some 3
  | '4' => some 4
  | '5' => some 5
  | '6' => some 6
  | 'B' => some 7
  | '7' => some 8
  | '8' => some 9
  | '9' => some 10
  | 'C' => some 11
  | '*' => some 12
  | '0' => some 13
  | '#' => some 14
  | 'D' => some 15
  | _ => none

/-- The inverse table of `most_common_key` (the `unreachable!` arm is
modelled with an arbitrary default; the scan below only produces indices
0..15). -/
def indexKey (idx : ℕ) : Char :=
  match idx with
  | 0 => '1'
  | 1 => '2'
  | 2 => '3'
  | 3 => 'A'
  | 4 => '4'
  | 5 => '5'
  | 6 => '6'
  | 7 => 'B'
  | 8 => '7'
  | 9 => '8'
  | 10 => '9'
  | 11 => 'C'
  | 12 => '*'
  | 13 => '0'
  | 14 => '#'
  | 15 => 'D'
  | _ => ' '

/-- The per-key counts accumulated by `most_common_key` (the `unreachable!`
arm for a non-key character is modelled as contributing to no bin; the
debouncer only ever stores detector-produced keys in the history). -/
def keyCounts (history : List Char) (i : ℕ) : ℕ :=
  history.countP (fun ch => keyIndex ch = some i)

/-- One step of `most_common_key`'s scan over the 16 counters: strictly
greater counts displace the maximum, so the earliest index wins ties. -/
def scanStep (counts : ℕ → ℕ) (st : Option ℕ × ℕ) (i : ℕ) : Option ℕ × ℕ :=
  if counts i > st.2 then (some i, counts i) else st

/-- The scan of `most_common_key` over indices `0..15` starting from
`(max_i, max_v) = (none, 0)`. -/
def scanArgmax (counts : ℕ → ℕ) : Option ℕ :=
  ((List.range 16).foldl (scanStep counts) (none, 0)).1

/-- `most_common_key` from detect.rs. -/
def most_common_key (history : List Char) : Option Char :=
  (scanArgmax (keyCounts history)).map indexKey

/-- `DtmfDebouncer` state (detect.rs), over an arbitrary sample type `α`.
`window` is the wrapped detector's accumulation state: the samples fed
since its last reset. -/
structure DtmfDebouncer (α : Type) where
  frame_len : ℕ
  min_press_frames : ℕ
  min_gap_frames : ℕ
  samples_in_frame : ℕ
  current : Option Char
  gap_frames : ℕ
  current_start : ℕ
  current_last : ℕ
  current_history : List Char
  window : List α

/-- A freshly built debouncer (`DtmfDebouncerBuilder::build` with explicit
frame/press/gap settings and a fresh detector). -/
def DtmfDebouncer.init (α : Type) (frame_len min_press_frames min_gap_frames : ℕ) :
    DtmfDebouncer α :=
  { frame_len := frame_len
    min_press_frames := min_press_frames
    min_gap_frames := min_gap_frames
    samples_in_frame := 0
    current := none
    gap_frames := 0
    current_start := 0
    current_last := 0
    current_history := []
    window := [] }

/-- `DtmfDebouncer::consume_frame` from detect.rs.  Returns the updated
state and the events pushed by this call. -/
def consume_frame {α : Type} (db : DtmfDebouncer α) (detected : Option Char)
    (frame_start frame_end : ℕ) : DtmfDebouncer α × List (Char × ℕ × ℕ) :=
  match detected with
  | some ch =>
      let db1 := if db.current = none
        then { db with current := some ch, current_start := frame_start }
        else db
      ({ db1 with current_history := db1.current_history ++ [ch]
                  current_last := frame_end
                  gap_frames := 0 }, [])
  | none =>
      if db.current.isSome then
        let gap := db.gap_frames + 1
        if db.min_gap_frames ≤ gap then
          let events :=
            if db.min_press_frames ≤ db.current_history.length then
              match most_common_key db.current_history with
              | some resolved => [(resolved, db.current_start, db.current_last)]
              | none => []
            else []
          ({ db with current := none, gap_frames := 0, current_history := [] }, events)
        else ({ db with gap_frames := gap }, [])
      else (db, [])

/-- The `while pos < samples.len()` loop of `DtmfDebouncer::push`
(detect.rs).  `pos` is the cursor into the *current call's* slice; when a
frame completes, `frame_end = (pos + take) - 1` and `frame_start =
frame_end + 1 - frame_len` are computed from it in u64 (the subtraction is
the wrapping/panicking one, `wrapSub64` here).  The `take = 0` guard is
unreachable for `frame_len ≥ 1` (the builder enforces that); the code would
spin forever there. -/
def pushGo {α : Type} (detect : List α → Option Char) :
    DtmfDebouncer α → List α → ℕ → DtmfDebouncer α × List (Char × ℕ × ℕ)
  | db, [], _ => (db, [])
  | db, x :: xs, pos =>
      let to_frame_end := db.frame_len - db.samples_in_frame
      let take := min to_frame_end (x :: xs).length
      if _h : take = 0 then (db, [])
      else
        let chunk := (x :: xs).take take
        let db1 := { db with window := db.window ++ chunk
                             samples_in_frame := db.samples_in_frame + take }
        let stepped :=
          if db1.samples_in_frame = db1.frame_len then
            let detected := detect db1.window
            let db2 := { db1 with window := [] }
            let frame_end := pos + take - 1
            let frame_start := wrapSub64 (frame_end + 1) db2.frame_len
            let r := consume_frame db2 detected frame_start frame_end
            ({ r.1 with samples_in_frame := 0 }, r.2)
          else (db1, ([] : List (Char × ℕ × ℕ)))
        let rest := pushGo detect stepped.1 ((x :: xs).drop take) (pos + take)
        (rest.1, stepped.2 ++ rest.2)
termination_by _ rem _ => rem.length
decreasing_by
  simp only [List.length_drop, List.length_cons]
  omega

/-- `DtmfDebouncer::push` (detect.rs): feed samples, return the events. -/
def DtmfDebouncer.push {α : Type} (detect : List α → Option Char)
    (db : DtmfDebouncer α) (samples : List α) :
    DtmfDebouncer α × List (Char × ℕ × ℕ) :=
  pushGo detect db samples 0

lemma keyIndex_lt_16 (ch : Char) (j : ℕ) (h : keyIndex ch = some j) : j < 16 := by
  unfold keyIndex at h
  split at h <;> simp_all <;> omega

lemma keyIndex_indexKey (i : ℕ) (hi : i < 16) : keyIndex (indexKey i) = some i := by
  interval_cases i <;> rfl

lemma keyCounts_eq_zero_of_ge (h : List Char) (j : ℕ) (hj : 16 ≤ j) : keyCounts h j = 0 := by
  unfold keyCounts
  rw [List.countP_eq_zero]
  intro ch _ hch
  simp at hch
  exact absurd (keyIndex_lt_16 ch j hch) (by omega)

lemma scanFold_inv (counts : ℕ → ℕ) (n : ℕ) :
    (((List.range n).foldl (scanStep counts) (none, 0)).1 = none →
      ((List.range n).foldl (scanStep counts) (none, 0)).2 = 0 ∧ ∀ j < n, counts j = 0) ∧
    (∀ i, ((List.range n).foldl (scanStep counts) (none, 0)).1 = some i →
      i < n ∧ counts i = ((List.range n).foldl (scanStep counts) (none, 0)).2 ∧
      0 < counts i ∧ (∀ j < n, counts j ≤ counts i) ∧
      (∀ j < n, counts j = counts i → i ≤ j)) := by
  induction n with
  | zero => simp
  | succ m ih =>
      obtain ⟨hnone, hsome⟩ := ih
      rw [List.range_succ, List.foldl_append, List.foldl_cons, List.foldl_nil]
      set prev := (List.range m).foldl (scanStep counts) (none, 0) with hprev
      rcases hp : prev.1 with _ | i
      · obtain ⟨hv, hz⟩ := hnone hp
        unfold scanStep
        rw [hv]
        by_cases hc : counts m > 0
        · simp only [if_pos hc]
          constructor
          · intro hcon; simp at hcon
          · intro i hi
            simp at hi
            subst hi
            refine ⟨by omega, rfl, hc, ?_, ?_⟩
            · intro j hj
              rcases Nat.lt_succ_iff_lt_or_eq.mp hj with hj' | hj'
              · rw [hz j hj']; omega
              · subst hj'; omega
            · intro j hj hje
              rcases Nat.lt_succ_iff_lt_or_eq.mp hj with hj' | hj'
              · rw [hz j hj'] at hje; omega
              · omega
        · simp only [if_neg hc]
          constructor
          · intro _
            refine ⟨hv, fun j hj => ?_⟩
            rcases Nat.lt_succ_iff_lt_or_eq.mp hj with hj' | hj'
            · exact hz j hj'
            · subst hj'; omega
          · intro i hi; rw [hp] at hi; simp at hi
      · obtain ⟨hlt, hcv, hpos, hmax, hties⟩ := hsome i hp
        unfold scanStep
        by_cases hc : counts m > prev.2
        · simp only [if_pos hc]
          constructor
          · intro hcon; simp at hcon
          · intro i' hi'
            simp at hi'
            subst hi'
            refine ⟨by omega, rfl, by omega, ?_, ?_⟩
            · intro j hj
              rcases Nat.lt_succ_iff_lt_or_eq.mp hj with hj' | hj'
              · have := hmax j hj'; omega
              · subst hj'; omega
            · intro j hj hje
              rcases Nat.lt_succ_iff_lt_or_eq.mp hj with hj' | hj'
              · have := hmax j hj'; omega
              · omega
        · simp only [if_neg hc]
          constructor
          · intro hcon; rw [hp] at hcon; simp at hcon
          · intro i' hi'
            rw [hp] at hi'
            simp at hi'
            subst hi'
            refine ⟨by omega, hcv, hpos, ?_, ?_⟩
            · intro j hj
              rcases Nat.lt_succ_iff_lt_or_eq.mp hj with hj' | hj'
              · exact hmax j hj'
              · subst hj'; omega
            · intro j hj hje
              rcases Nat.lt_succ_iff_lt_or_eq.mp hj with hj' | hj'
              · exact hties j hj' hje
              · omega

lemma most_common_key_spec (h : List Char) (k : Char) (hk : most_common_key h = some k) :
    ∃ i, i < 16 ∧ indexKey i = k ∧ keyIndex k = some i ∧ 0 < keyCounts h i ∧
      (∀ j, keyCounts h j ≤ keyCounts h i) ∧
      (∀ j, keyCounts h j = keyCounts h i → i ≤ j) := by
  unfold most_common_key scanArgmax at hk
  rcases ho : ((List.range 16).foldl (scanStep (keyCounts h)) (none, 0)).1 with _ | i
  · rw [ho] at hk; simp at hk
  · rw [ho] at hk
    simp only [Option.map_some', Option.some_inj] at hk
    obtain ⟨hlt, hcv, hpos, hmax, hties⟩ := (scanFold_inv (keyCounts h) 16).2 i ho
    refine ⟨i, hlt, hk, ?_, hpos, ?_, ?_⟩
    · rw [← hk]; exact keyIndex_indexKey i hlt
    · intro j
      by_cases hj : j < 16
      · exact hmax j hj
      · rw [keyCounts_eq_zero_of_ge h j (by omega)]; omega
    · intro j hje
      by_cases hj : j < 16
      · exact hties j hj hje
      · rw [keyCounts_eq_zero_of_ge h j (by omega)] at hje; omega

lemma most_common_key_strict_max (h : List Char) (i : ℕ) (hi : i < 16)
    (hpos : 0 < keyCounts h i) (hmax : ∀ j, j ≠ i → keyCounts h j < keyCounts h i) :
    most_common_key h = some (indexKey i) := by
  unfold most_common_key scanArgmax
  rcases ho : ((List.range 16).foldl (scanStep (keyCounts h)) (none, 0)).1 with _ | i'
  · obtain ⟨_, hz⟩ := (scanFold_inv (keyCounts h) 16).1 ho
    rw [hz i hi] at hpos
    omega
  · obtain ⟨hlt', _, _, hmax', _⟩ := (scanFold_inv (keyCounts h) 16).2 i' ho
    have hii : i' = i := by
      by_contra hne
      have h1 := hmax i' hne
      have h2 := hmax' i hi
      omega
    rw [hii]
    rfl

/-- C4: with a tentative key active, once the consecutive no-detection count
reaches `min_gap_frames` the debouncer emits an event exactly when the
history has at least `min_press_frames` entries — the emitted key being the
majority key over the whole history, ties broken by the lowest index in the
fixed ordering `1 2 3 A 4 5 6 B 7 8 9 C * 0 # D` — and clears the tracking
state (tentative key, history, gap counter) regardless; below the gap
minimum only the counter advances; a frame detecting any key (also a
flicker to a different key) keeps the tentative key, appends to the
history, and resets the gap counter; a key whose count strictly exceeds
every other key's count always wins the vote (so a single-frame flicker
cannot change the outcome). -/
theorem consume_frame_commit_and_majority :
    (∀ (α : Type) (db : DtmfDebouncer α) (fs fe : ℕ) (r : Char),
        db.current.isSome = true → db.min_gap_frames ≤ db.gap_frames + 1 →
        db.min_press_frames ≤ db.current_history.length →
        most_common_key db.current_history = some r →
        consume_frame db none fs fe =
          ({ db with current := none, gap_frames := 0, current_history := [] },
            [(r, db.current_start, db.current_last)])) ∧
    (∀ (α : Type) (db : DtmfDebouncer α) (fs fe : ℕ),
        db.current.isSome = true → db.min_gap_frames ≤ db.gap_frames + 1 →
        db.current_history.length < db.min_press_frames →
        consume_frame db none fs fe =
          ({ db with current := none, gap_frames := 0, current_history := [] }, [])) ∧
    (∀ (α : Type) (db : DtmfDebouncer α) (fs fe : ℕ),
        db.current.isSome = true → db.gap_frames + 1 < db.min_gap_frames →
        consume_frame db none fs fe = ({ db with gap_frames := db.gap_frames + 1 }, [])) ∧
    (∀ (α : Type) (db : DtmfDebouncer α) (d : Char) (fs fe : ℕ),
        db.current.isSome = true →
        consume_frame db (some d) fs fe =
          ({ db with current_history := db.current_history ++ [d], current_last := fe,
                     gap_frames := 0 }, [])) ∧
    (∀ (h : List Char) (k : Char), most_common_key h = some k →
        ∃ i, i < 16 ∧ indexKey i = k ∧ keyIndex k = some i ∧ 0 < keyCounts h i ∧
          (∀ j, keyCounts h j ≤ keyCounts h i) ∧
          (∀ j, keyCounts h j = keyCounts h i → i ≤ j)) ∧
    (∀ (h : List Char) (i : ℕ), i < 16 → 0 < keyCounts h i →
        (∀ j, j ≠ i → keyCounts h j < keyCounts h i) →
        most_common_key h = some (indexKey i)) := by
  refine ⟨?_, ?_, ?_, ?_, most_common_key_spec, most_common_key_strict_max⟩
  · intro α db fs fe r h1 h2 h3 hr
    simp [consume_frame, h1, h2, h3, hr]
  · intro α db fs fe h1 h2 h3
    simp [consume_frame, h1, h2, Nat.not_le.mpr h3]
  · intro α db fs fe h1 h2
    simp [consume_frame, h1, Nat.not_le.mpr h2]
  · intro α db d fs fe h1
    have hne : ¬ db.current = none := by
      cases hx : db.current
      · rw [hx] at h1; simp at h1
      · simp
    simp [consume_frame, hne]

/-- C4 witness: a press history `5 5 7 5 5` (one single-frame flicker to
`7`) committed after the third empty frame emits exactly one event carrying
the majority key `5` with the provisional start/last samples, and the
strict-majority vote resolves to `5`. -/
theorem consume_frame_commit_and_majority_witness :
    @consume_frame ℕ ⟨2, 2, 3, 0, some '5', 2, 4, 9, ['5', '5', '7', '5', '5'], []⟩
        none 12 13 =
      (⟨2, 2, 3, 0, none, 0, 4, 9, [], []⟩, [('5', 4, 9)]) ∧
    most_common_key ['5', '5', '7', '5', '5'] = some (indexKey 5) :=
  ⟨consume_frame_commit_and_majority.1 ℕ
      ⟨2, 2, 3, 0, some '5', 2, 4, 9, ['5', '5', '7', '5', '5'], []⟩ 12 13 '5'
      (by decide) (by decide) (by decide) (by decide),
    consume_frame_commit_and_majority.2.2.2.2.2 ['5', '5', '7', '5', '5'] 5
      (by decide) (by decide)
      (fun j hne => by
        by_cases hj : j < 16
        · interval_cases j <;> revert hne <;> decide
        · rw [keyCounts_eq_zero_of_ge _ j (by omega)]; decide)⟩

/-- C2 evaluated at a failing input: with frame length 2 (defaults
`min_press_frames = 2`, `min_gap_frames = 3`) and a detector window function
that detects key `5` on frames starting with sample value 1, a first push of
two silent samples followed by a second push of `[1,1,1,1,0,0,0,0,0,0]`
emits the event `('5', 0, 3)` — positions relative to the second call's
slice — although the detected frames occupy absolute stream positions 2..5
(start 2, last-seen end 5) counted from the first sample pushed since the
last reset.  `frame_end` is computed from the current call's `pos`, so
events do not carry absolute positions across multiple push calls. -/
theorem push_positions_not_absolute_across_calls :
    (((DtmfDebouncer.init ℕ 2 2 3).push
        (fun w => if w.head? = some 1 then some '5' else none) [0, 0]).1.push
        (fun w => if w.head? = some 1 then some '5' else none)
        [1, 1, 1, 1, 0, 0, 0, 0, 0, 0]).2 = [('5', 0, 3)] ∧
    (('5', 0, 3) : Char × ℕ × ℕ) ≠ ('5', 2, 5) := by
  constructor
  · simp [DtmfDebouncer.push, pushGo, consume_frame, DtmfDebouncer.init, wrapSub64]
    decide
  · decide

/-- C10 evaluated at the failing input: with frame length 2, pushing one
sample and then one more completes the first frame inside the second call
with `take = 1`, so the u64 computation `frame_end + 1 - frame_len = 1 - 2`
underflows: the stored press start becomes `2^64 - 1` (wrapping release
semantics; a debug build panics at this subtraction), not the true frame
start 0. -/
theorem push_frame_start_underflows :
    (((DtmfDebouncer.init ℕ 2 1 1).push (fun _ => some '1') [0]).1.push
        (fun _ => some '1') [0]).1.current_start = 2 ^ 64 - 1 ∧
    (2 : ℕ) ^ 64 - 1 ≠ 0 := by
  constructor
  · simp [DtmfDebouncer.push, pushGo, consume_frame, DtmfDebouncer.init, wrapSub64]
  · decide

/-! ## DTMF detector DSP — crates/meshcq-dtmf/src/detect/dsp.rs -/

noncomputable section

open Real

/-- `DTMF_FREQS` from dsp.rs. -/
def DTMF_FREQS : Fin 8 → ℝ :=
  fun i => [697, 770, 852, 941, 1209, 1336, 1477, 1633].getD i.val 0

/-- `DTMF_KEYS[li][hi]` (the out-of-bounds panic is unreachable: the scan
produces indices 0..3). -/
def dtmfKeyAt (li hi : ℕ) : Char :=
  (([['1', '2', '3', 'A'],
     ['4', '5', '6', 'B'],
     ['7', '8', '9', 'C'],
     ['*', '0', '#', 'D']].getD li []).getD hi ' ')

/-- `f32::MIN`, the sentinel of `top_two`: `-(2 - 2^-23) * 2^127`. -/
def f32MIN : ℝ := -(2 ^ 128 - 2 ^ 104)

/-- `DtmfDetector` from dsp.rs (`peakRatioGate` is the source's
`peak_ratio` field). -/
structure DtmfDetector where
  n : ℕ
  coeffs : Fin 8 → ℝ
  peakRatioGate : ℝ
  twist_db : ℝ
  s1 : Fin 8 → ℝ
  s2 : Fin 8 → ℝ
  samples_seen : ℕ

/-- `goertzel_coeffs`: `2 * cos(2π f / rate)` per target frequency. -/
def goertzel_coeffs (sample_rate_hz : ℝ) (freqs : Fin 8 → ℝ) : Fin 8 → ℝ :=
  fun i => 2 * Real.cos (2 * Real.pi * freqs i / sample_rate_hz)

/-- `DtmfDetector::with_thresholds` (`n.max(1)`, zero filter state). -/
def DtmfDetector.with_thresholds (sample_rate_hz : ℝ) (n : ℕ)
    (peak_gate twist : ℝ) : DtmfDetector :=
  { n := max n 1
    coeffs := goertzel_coeffs sample_rate_hz DTMF_FREQS
    peakRatioGate := peak_gate
    twist_db := twist
    s1 := fun _ => 0
    s2 := fun _ => 0
    samples_seen := 0 }

/-- `DtmfDetector::new`: default thresholds 6.0 and 12 dB. -/
def DtmfDetector.new (sample_rate_hz : ℝ) (n : ℕ) : DtmfDetector :=
  DtmfDetector.with_thresholds sample_rate_hz n 6 12

/-- `DtmfDetector::reset`. -/
def DtmfDetector.reset (d : DtmfDetector) : DtmfDetector :=
  { d with s1 := fun _ => 0, s2 := fun _ => 0, samples_seen := 0 }

/-- The two-pole Goertzel recursion for one input sample (the inner loop of
`feed`). -/
def DtmfDetector.feedStep (d : DtmfDetector) (x : ℝ) : DtmfDetector :=
  { d with s1 := fun i => x + d.coeffs i * d.s1 i - d.s2 i
           s2 := d.s1
           samples_seen := d.samples_seen + 1 }

/-- `DtmfDetector::feed`: runs the recursion for at most `n - samples_seen`
further samples; extra samples are ignored once the window is full. -/
def DtmfDetector.feed (d : DtmfDetector) (samples : List ℝ) : DtmfDetector :=
  if d.n ≤ d.samples_seen then d
  else (samples.take (d.n - d.samples_seen)).foldl DtmfDetector.feedStep d

/-- `goertzel_finish`: magnitude-squared score per bin. -/
def goertzel_finish (s1 s2 coeffs : Fin 8 → ℝ) : Fin 8 → ℝ :=
  fun i => s1 i * s1 i + s2 i * s2 i - coeffs i * s1 i * s2 i

/-- The scan loop of `top_two` over the values after the first, carrying
`(max_i, max_v, next_v)` and the 1-based index of the current element. -/
def topTwoGo : List ℝ → ℕ → ℕ → ℝ → ℝ → ℕ × ℝ × ℝ
  | [], _, max_i, max_v, next_v => (max_i, max_v, next_v)
  | v :: rest, i, max_i, max_v, next_v =>
      if v > max_v then topTwoGo rest (i + 1) i v max_v
      else if v > next_v then topTwoGo rest (i + 1) max_i max_v v
      else topTwoGo rest (i + 1) max_i max_v next_v

/-- `top_two` from dsp.rs: strongest and second-strongest value with the
strongest one's index; `none` when the list is empty or no second value
rose above the `f32::MIN` sentinel. -/
def top_two : List ℝ → Option (ℕ × ℝ × ℝ)
  | [] => none
  | v :: rest =>
      let r := topTwoGo rest 1 0 v f32MIN
      if r.2.2 = f32MIN then none else some r

/-- `twist_ok` from dsp.rs: both peaks positive and
`10 * |log10(high/low)|` within the twist budget. -/
def twist_ok (low_peak high_peak twist_db : ℝ) : Bool :=
  if low_peak ≤ 0 ∨ high_peak ≤ 0 then false
  else decide (10 * |Real.logb 10 (high_peak / low_peak)| ≤ twist_db)

/-- The row-bin score slice `&mags[..4]`. -/
def DtmfDetector.lowMags (d : DtmfDetector) : List ℝ :=
  let mags := goertzel_finish d.s1 d.s2 d.coeffs
  [mags 0, mags 1, mags 2, mags 3]

/-- The column-bin score slice `&mags[4..]`. -/
def DtmfDetector.highMags (d : DtmfDetector) : List ℝ :=
  let mags := goertzel_finish d.s1 d.s2 d.coeffs
  [mags 4, mags 5, mags 6, mags 7]

/-- `DtmfDetector::finish` from dsp.rs. -/
def DtmfDetector.finish (d : DtmfDetector) : Option Char :=
  match top_two d.lowMags, top_two d.highMags with
  | some (low_i, low_peak, low_next), some (high_i, high_peak, high_next) =>
      if low_peak < low_next * d.peakRatioGate ∨ high_peak < high_next * d.peakRatioGate then
        none
      else if twist_ok low_peak high_peak d.twist_db then some (dtmfKeyAt low_i high_i)
      else none
  | _, _ => none

end

lemma finish_zero_state (d : DtmfDetector) (hs1 : d.s1 = fun _ => 0)
    (hs2 : d.s2 = fun _ => 0) : d.finish = none := by
  unfold DtmfDetector.finish DtmfDetector.lowMags DtmfDetector.highMags
  rw [hs1, hs2]
  unfold goertzel_finish top_two twist_ok
  norm_num [topTwoGo, f32MIN]

lemma foldl_feedStep_zero (l : List ℝ) (hl : ∀ x ∈ l, x = 0) :
    ∀ d : DtmfDetector, d.s1 = (fun _ => 0) → d.s2 = (fun _ => 0) →
      (l.foldl DtmfDetector.feedStep d).s1 = (fun _ => 0) ∧
      (l.foldl DtmfDetector.feedStep d).s2 = (fun _ => 0) := by
  induction l with
  | nil => intro d h1 h2; exact ⟨h1, h2⟩
  | cons x xs ih =>
      intro d h1 h2
      have hx : x = 0 := hl x (by simp)
      have hstep1 : (d.feedStep x).s1 = (fun _ => 0) := by
        funext i
        simp [DtmfDetector.feedStep, hx, congrFun h1 i, congrFun h2 i]
      have hstep2 : (d.feedStep x).s2 = (fun _ => 0) := by
        simp [DtmfDetector.feedStep, h1]
      exact ih (fun y hy => hl y (by simp [hy])) (d.feedStep x) hstep1 hstep2

/-- C8: `DtmfDetector::finish` returns a key only if the strongest row bin
is at least `peak_ratio` times the second-strongest (same for the column
bins) and the twist `10 * |log10(col_peak/row_peak)|` dB is within the
twist threshold; feeding any number of zero samples into a fresh detector
(an all-zero accumulation window) yields `finish = none`. -/
theorem finish_requires_dominance_and_twist :
    (∀ (d : DtmfDetector) (k : Char), d.finish = some k →
      ∃ li lp ln hi hp hn,
        top_two d.lowMags = some (li, lp, ln) ∧
        top_two d.highMags = some (hi, hp, hn) ∧
        ln * d.peakRatioGate ≤ lp ∧ hn * d.peakRatioGate ≤ hp ∧
        0 < lp ∧ 0 < hp ∧
        10 * |Real.logb 10 (hp / lp)| ≤ d.twist_db ∧
        k = dtmfKeyAt li hi) ∧
    (∀ (sample_rate_hz : ℝ) (n : ℕ) (peak_gate twist : ℝ) (m : ℕ),
      ((DtmfDetector.with_thresholds sample_rate_hz n peak_gate twist).feed
          (List.replicate m 0)).finish = none) := by
  constructor
  · intro d k hk
    unfold DtmfDetector.finish at hk
    rcases hlow : top_two d.lowMags with _ | ⟨li, lp, ln⟩
    · rw [hlow] at hk; simp at hk
    · rcases hhigh : top_two d.highMags with _ | ⟨hi, hp, hn⟩
      · rw [hlow, hhigh] at hk; simp at hk
      · rw [hlow, hhigh] at hk
        dsimp only at hk
        by_cases hdom : lp < ln * d.peakRatioGate ∨ hp < hn * d.peakRatioGate
        · rw [if_pos hdom] at hk; simp at hk
        · rw [if_neg hdom] at hk
          push_neg at hdom
          by_cases htw : twist_ok lp hp d.twist_db = true
          · rw [if_pos htw] at hk
            simp only [Option.some_inj] at hk
            unfold twist_ok at htw
            by_cases hpos : lp ≤ 0 ∨ hp ≤ 0
            · rw [if_pos hpos] at htw; simp at htw
            · rw [if_neg hpos] at htw
              push_neg at hpos
              simp only [decide_eq_true_eq] at htw
              exact ⟨li, lp, ln, hi, hp, hn, rfl, rfl, hdom.1, hdom.2, hpos.1, hpos.2,
                htw, hk.symm⟩
          · rw [if_neg htw] at hk; simp at hk
  · intro rate n pr td m
    have hfresh : (DtmfDetector.with_thresholds rate n pr td).s1 = (fun _ => 0) ∧
        (DtmfDetector.with_thresholds rate n pr td).s2 = (fun _ => 0) ∧
        (DtmfDetector.with_thresholds rate n pr td).samples_seen = 0 ∧
        (DtmfDetector.with_thresholds rate n pr td).n = max n 1 := ⟨rfl, rfl, rfl, rfl⟩
    unfold DtmfDetector.feed
    rw [hfresh.2.2.1]
    rw [if_neg (by simp [hfresh.2.2.2])]
    rw [List.take_replicate]
    obtain ⟨h1, h2⟩ := foldl_feedStep_zero
      (List.replicate (min ((DtmfDetector.with_thresholds rate n pr td).n - 0) m) (0:ℝ))
      (fun x hx => (List.eq_of_mem_replicate hx))
      (DtmfDetector.with_thresholds rate n pr td) hfresh.1 hfresh.2.1
    exact finish_zero_state _ h1 h2

def dtmfWitnessDetector : DtmfDetector :=
  { n := 4
    coeffs := fun _ => 0
    peakRatioGate := 6
    twist_db := 12
    s1 := fun i => [3, 1, 0, 0, 3, 1, 0, 0].getD i.val 0
    s2 := fun _ => 0
    samples_seen := 0 }

/-- C8 witness: a detector state with row/column scores `9 1 0 0` passes
both dominance gates and a zero twist, detecting key `1`; four zero samples
into a fresh detector yield no detection. -/
theorem finish_requires_dominance_and_twist_witness :
    dtmfWitnessDetector.finish = some '1' ∧
    (∃ li lp ln hi hp hn,
      top_two dtmfWitnessDetector.lowMags = some (li, lp, ln) ∧
      top_two dtmfWitnessDetector.highMags = some (hi, hp, hn) ∧
      ln * dtmfWitnessDetector.peakRatioGate ≤ lp ∧
      hn * dtmfWitnessDetector.peakRatioGate ≤ hp ∧
      0 < lp ∧ 0 < hp ∧
      10 * |Real.logb 10 (hp / lp)| ≤ dtmfWitnessDetector.twist_db ∧
      ('1' : Char) = dtmfKeyAt li hi) ∧
    ((DtmfDetector.with_thresholds 8000 4 6 12).feed (List.replicate 4 0)).finish = none := by
  have hfin : dtmfWitnessDetector.finish = some '1' := by
    norm_num [dtmfWitnessDetector, DtmfDetector.finish, DtmfDetector.lowMags,
    DtmfDetector.highMags, goertzel_finish, top_two, topTwoGo, twist_ok, f32MIN,
    dtmfKeyAt, Fin.isValue, List.getD,
    show ((0 : Fin 8)).val = 0 from rfl, show ((1 : Fin 8)).val = 1 from rfl,
    show ((2 : Fin 8)).val = 2 from rfl, show ((3 : Fin 8)).val = 3 from rfl,
    show ((4 : Fin 8)).val = 4 from rfl, show ((5 : Fin 8)).val = 5 from rfl,
    show ((6 : Fin 8)).val = 6 from rfl, show ((7 : Fin 8)).val = 7 from rfl]
  exact ⟨hfin, finish_requires_dominance_and_twist.1 dtmfWitnessDetector '1' hfin,
    finish_requires_dominance_and_twist.2 8000 4 6 12 4⟩
